import Mathlib

/-!
Shallow embedding of the multiple-worlds coin-flip simulation
(src/src/main.rs) and proofs about it.

Modelling conventions:
* `f64` probabilities become `ℚ`; the only operations the program performs on
  them are range comparisons against 0 and 1, which `ℚ` models exactly.
* `isize` counters become `Int`.
* `SmallRng` is modelled abstractly as its seed together with the number of
  Bernoulli draws made so far; the actual sampled booleans are given by an
  arbitrary deterministic function `FlipFun` of the distribution parameter and
  the generator state, so every theorem quantifies over all possible sampler
  behaviours.
* panics (`assert!`, `.unwrap()`) become `Option.none`.
-/

namespace CoinSim

/-- Component that stores coin state (`enum CoinState`). -/
inductive CoinState where
  | Heads
  | Tails
deriving DecidableEq

/-- The results resource of one simulation world (`struct CoinSimResults`). -/
structure CoinSimResults where
  p : ℚ
  n_tosses : Int
  n_heads : Int
deriving DecidableEq

/-- One entity of a simulation world: its `CoinOdds` component (field `p`)
and its optional `CoinState` component. -/
structure CoinEntity where
  p : ℚ
  state : Option CoinState
deriving DecidableEq

/-- `SmallRng`, modelled as the seed it was created from plus the number of
draws made so far. -/
structure SmallRng where
  seed : Nat
  draws : Nat
deriving DecidableEq

/-- `SmallRng::seed_from_u64`. -/
def SmallRng.seed_from_u64 (s : Nat) : SmallRng := ⟨s, 0⟩

/-- Drawing one sample advances the generator. -/
def SmallRng.advance (r : SmallRng) : SmallRng := ⟨r.seed, r.draws + 1⟩

/-- `rand::distributions::Bernoulli` (just its parameter). -/
structure Bernoulli where
  p : ℚ
deriving DecidableEq

/-- `Bernoulli::new`: fails (returns `Err`) exactly when the probability is
outside `[0, 1]`. -/
def Bernoulli.new (p : ℚ) : Option Bernoulli :=
  if 0 ≤ p ∧ p ≤ 1 then some ⟨p⟩ else none

/-- The abstract deterministic sampler: given the distribution parameter and
the current generator state, the boolean that `distribution.sample(&mut rng)`
returns.  Determinism of `SmallRng` means this is a function. -/
abbrev FlipFun : Type := ℚ → SmallRng → Bool

/-- A simulation `World`: its entities, the `NTosses` resource, the
`SmallRng` resource and the `CoinSimResults` resource. -/
structure World where
  entities : List CoinEntity
  n_tosses_res : Int
  rng : SmallRng
  results : CoinSimResults
deriving DecidableEq

/-- The loop body of `flip_coins`: walk the entities in query order, build a
`Bernoulli` from each entity's odds (panicking — `none` — if that fails),
sample it, and attach the resulting `CoinState`, threading the generator. -/
def flipList (f : FlipFun) : List CoinEntity → SmallRng → Option (List CoinEntity × SmallRng)
  | [], rng => some ([], rng)
  | e :: es, rng =>
    match Bernoulli.new e.p with
    | none => none
    | some d =>
      let was_heads := f d.p rng
      let e' : CoinEntity :=
        { e with state := some (if was_heads then CoinState.Heads else CoinState.Tails) }
      (flipList f es rng.advance).bind fun pr => some (e' :: pr.1, pr.2)

/-- System `flip_coins` (the whole `simulation` stage, commands applied at the
stage boundary). -/
def flip_coins (f : FlipFun) (w : World) : Option World :=
  (flipList f w.entities w.rng).bind fun pr =>
    some { w with entities := pr.1, rng := pr.2 }

/-- One iteration of the `record_coins` loop body. -/
def recordEntity (r : CoinSimResults) (e : CoinEntity) : CoinSimResults :=
  match e.state with
  | none => r
  | some s =>
    { r with
      n_tosses := r.n_tosses + 1
      n_heads := r.n_heads + (if s = CoinState.Heads then 1 else 0) }

/-- The `record_coins` loop over the query results (entities that carry a
`CoinState`; entities without one are skipped by `recordEntity`). -/
def recordList : List CoinEntity → CoinSimResults → CoinSimResults
  | [], r => r
  | e :: es, r => recordList es (recordEntity r e)

/-- System `record_coins`. -/
def record_coins (w : World) : World :=
  { w with results := recordList w.entities w.results }

/-- Removing the `CoinState` component from one entity. -/
def clearEntity (e : CoinEntity) : CoinEntity := { e with state := none }

/-- System `reset_coins`: remove `CoinState` from every entity (its commands
are applied at the end of the `recording` stage, after `record_coins` has
read the states). -/
def reset_coins (w : World) : World :=
  { w with entities := w.entities.map clearEntity }

/-- `schedule.run_once`: the `simulation` stage (`flip_coins`) followed by the
`recording` stage (`record_coins`, then the deferred removals of
`reset_coins`). -/
def run_once (f : FlipFun) (w : World) : Option World :=
  (flip_coins f w).bind fun w1 => some (reset_coins (record_coins w1))

/-- Running the schedule `k` times. -/
def runN (f : FlipFun) : Nat → World → Option World
  | 0, w => some w
  | k + 1, w => (run_once f w).bind (runN f k)

/-- System `run_simulation`: `for _ in 0..steps { schedule.run_once(world) }`
(an `isize` bound that is not positive gives zero iterations). -/
def run_simulation (f : FlipFun) (steps : Int) (w : World) : Option World :=
  runN f steps.toNat w

/-- `struct Simulation<N>` (the schedule is fixed, so only the world is
data). -/
structure Simulation where
  world : World
deriving DecidableEq

/-- `Simulation::new(p, n_tosses)`: assert `0 ≤ p ≤ 1` (panic modelled as
`none`), spawn `n_tosses` entities with `CoinOdds { p }`, insert the
`NTosses`, seeded `SmallRng` and zeroed `CoinSimResults` resources. -/
def Simulation.new (p : ℚ) (n_tosses : Int) : Option Simulation :=
  if 0 ≤ p ∧ p ≤ 1 then
    some
      { world :=
        { entities := List.replicate n_tosses.toNat { p := p, state := none }
          n_tosses_res := n_tosses
          rng := SmallRng.seed_from_u64 42
          results := { p := p, n_tosses := 0, n_heads := 0 } } }
  else none

/-- `run_simulation::<N>` as it acts on the registry of simulation resources
of the main world: run the `N`-th simulation's schedule `steps` times,
leaving every other simulation resource untouched. -/
def run_simulation_system (f : FlipFun) (steps : Int) (sims : List Simulation)
    (j : Nat) : Option (List Simulation) :=
  match sims[j]? with
  | none => none
  | some s => (run_simulation f steps s.world).bind fun w' =>
      some (sims.set j { world := w' })

/-- The main world: the `SimulationSteps` resource, the simulation resources
in registration order, and the `Vec<CoinSimResults>` store. -/
structure MainWorld where
  simulation_steps : Int
  sims : List Simulation
  collected_data : List CoinSimResults
deriving DecidableEq

/-- One tick over the registry, in registration order: run each simulation's
schedule `steps` times (`run_simulation`), and collect a clone of its
`CoinSimResults` resource (`collect_data`). -/
def tickFrom (f : FlipFun) (steps : Int) :
    List Simulation → Option (List Simulation × List CoinSimResults)
  | [] => some ([], [])
  | s :: rest =>
    (run_simulation f steps s.world).bind fun w' =>
    (tickFrom f steps rest).bind fun pr =>
    some (({ world := w' } : Simulation) :: pr.1, w'.results :: pr.2)

/-- Modelled from the spec: one pass of the main `Update` stage (one tick).
The relative execution order of the `run_simulation::<N>` and
`collect_data::<N>` systems is decided by the host scheduler, not by code in
this repository; following the spec (section 4.4), each instance's pipeline
is run `K` times and its snapshot appended, in registration order. -/
def tick (f : FlipFun) (m : MainWorld) : Option MainWorld :=
  (tickFrom f m.simulation_steps m.sims).bind fun pr =>
    some { m with sims := pr.1, collected_data := m.collected_data ++ pr.2 }

/-- Running `t` ticks of the app main loop. -/
def runTicks (f : FlipFun) : Nat → MainWorld → Option MainWorld
  | 0, m => some m
  | t + 1, m => (tick f m).bind (runTicks f t)

/-- The chain of `add_simulation(Simulation::new(p, n))` calls: constructing
any instance panics (`none`) aborts the whole app build. -/
def add_simulations : List (ℚ × Int) → Option (List Simulation)
  | [] => some []
  | pn :: rest =>
    (Simulation.new pn.1 pn.2).bind fun s =>
    (add_simulations rest).bind fun sims =>
    some (s :: sims)

/-- Building the app: `insert_resource(SimulationSteps(steps))`, register the
given simulations, start with an empty `Vec<CoinSimResults>`. -/
def build_app (steps : Int) (params : List (ℚ × Int)) : Option MainWorld :=
  (add_simulations params).bind fun sims =>
    some { simulation_steps := steps, sims := sims, collected_data := [] }

/-- The rational `1/2` (the `0.5` of `main`), written with explicit
numerator and denominator so that kernel evaluation of the model never needs
`Nat.gcd`; `pHalf_eq` below proves it equal to `1/2`. -/
def pHalf : ℚ := ⟨1, 2, by norm_num, Nat.coprime_one_left 2⟩

/-- The rational `1/10` (the `0.1` of `main`), written with explicit
numerator and denominator; `pTenth_eq` below proves it equal to `1/10`. -/
def pTenth : ℚ := ⟨1, 10, by norm_num, Nat.coprime_one_left 10⟩

/-- The parameters `main` registers its three simulations with:
`(0.5, 100)`, `(0.1, 100)`, `(1.0, 400)`. -/
def mainParams : List (ℚ × Int) := [(pHalf, 100), (pTenth, 100), (1, 400)]

/-- `SimulationSteps(10)` from `main`. -/
def mainSteps : Int := 10

/-- Number of entities that currently carry an outcome. -/
def countOutcomes : List CoinEntity → Nat
  | [] => 0
  | e :: es => (if e.state.isSome then 1 else 0) + countOutcomes es

/-- Whether an entity's outcome is the success value (`CoinState::Heads`). -/
def headsOutcome (e : CoinEntity) : Bool :=
  match e.state with
  | some CoinState.Heads => true
  | _ => false

/-- Number of entities whose outcome is the success value. -/
def countHeads : List CoinEntity → Nat
  | [] => 0
  | e :: es => (if headsOutcome e then 1 else 0) + countHeads es

/-- All entity odds lie in `[0, 1]` (established by `Simulation::new`). -/
def WOk (w : World) : Prop := ∀ e ∈ w.entities, 0 ≤ e.p ∧ e.p ≤ 1

/-- What one run of `k` schedule steps does to a world, observed at its
boundary: entity odds preserved, generator seed preserved and draw count
advanced by `k` draws per entity, result parameter preserved, trial counter
advanced by exactly `k` per entity, success counter advanced by between `0`
and `k` per entity, and the `NTosses` resource untouched. -/
def WorldRel (k : Nat) (w w' : World) : Prop :=
  w'.entities.map CoinEntity.p = w.entities.map CoinEntity.p ∧
  w'.rng.seed = w.rng.seed ∧
  w'.rng.draws = w.rng.draws + k * w.entities.length ∧
  w'.results.p = w.results.p ∧
  w'.results.n_tosses = w.results.n_tosses + (k * w.entities.length : Nat) ∧
  w.results.n_heads ≤ w'.results.n_heads ∧
  w'.results.n_heads ≤ w.results.n_heads + (k * w.entities.length : Nat) ∧
  w'.n_tosses_res = w.n_tosses_res

/-! ### Basic lemmas about the stage bodies -/

theorem flipList_nil (f : FlipFun) (rng : SmallRng) : flipList f [] rng = some ([], rng) := rfl

theorem flipList_cons (f : FlipFun) (e : CoinEntity) (es : List CoinEntity) (rng : SmallRng) :
    flipList f (e :: es) rng =
      match Bernoulli.new e.p with
      | none => none
      | some d =>
        (flipList f es rng.advance).bind fun pr =>
          some ({ e with
                  state := some (if f d.p rng then CoinState.Heads else CoinState.Tails) } :: pr.1,
                pr.2) := rfl

theorem flipList_some_spec (f : FlipFun) (es : List CoinEntity) :
    ∀ (rng : SmallRng) (pr : List CoinEntity × SmallRng),
      flipList f es rng = some pr →
      pr.1.map CoinEntity.p = es.map CoinEntity.p ∧
      (∀ e ∈ pr.1, e.state.isSome = true) ∧
      pr.2.seed = rng.seed ∧ pr.2.draws = rng.draws + es.length := by
  induction es with
  | nil =>
    intro rng pr h
    rw [flipList_nil, Option.some_inj] at h
    subst h
    simp
  | cons e es ih =>
    intro rng pr h
    rw [flipList_cons] at h
    cases hb : Bernoulli.new e.p with
    | none => rw [hb] at h; cases h
    | some d =>
      rw [hb] at h
      rw [Option.bind_eq_some] at h
      obtain ⟨pr0, hpr0, hsome⟩ := h
      rw [Option.some_inj] at hsome
      subst hsome
      obtain ⟨hmap, hstates, hseed, hdraws⟩ := ih rng.advance pr0 hpr0
      refine ⟨by simpa using hmap, ?_, ?_, ?_⟩
      · intro x hx
        rcases List.mem_cons.mp hx with h1 | h2
        · subst h1; rfl
        · exact hstates x h2
      · simpa [SmallRng.advance] using hseed
      · simp only [hdraws, SmallRng.advance, List.length_cons]
        omega

theorem flipList_isSome (f : FlipFun) (es : List CoinEntity) :
    ∀ rng : SmallRng, (∀ e ∈ es, 0 ≤ e.p ∧ e.p ≤ 1) →
      (flipList f es rng).isSome = true := by
  induction es with
  | nil => intro rng _; rw [flipList_nil]; rfl
  | cons e es ih =>
    intro rng hok
    rw [flipList_cons]
    have hb : Bernoulli.new e.p = some ⟨e.p⟩ := by
      unfold Bernoulli.new
      rw [if_pos (hok e (List.mem_cons_self e es))]
    rw [hb]
    have := ih rng.advance (fun x hx => hok x (List.mem_cons_of_mem e hx))
    rw [Option.isSome_iff_exists] at this
    obtain ⟨pr0, hpr0⟩ := this
    simp [hpr0]

theorem countOutcomes_eq_length (es : List CoinEntity)
    (h : ∀ e ∈ es, e.state.isSome = true) : countOutcomes es = es.length := by
  induction es with
  | nil => rfl
  | cons e es ih =>
    have he := h e (List.mem_cons_self e es)
    simp only [countOutcomes, List.length_cons, he, if_pos]
    rw [ih (fun x hx => h x (List.mem_cons_of_mem e hx))]
    omega

theorem countHeads_le_countOutcomes (es : List CoinEntity) :
    countHeads es ≤ countOutcomes es := by
  induction es with
  | nil => exact Nat.le_refl 0
  | cons e es ih =>
    simp only [countHeads, countOutcomes]
    have : (if headsOutcome e then 1 else 0) ≤ (if e.state.isSome then 1 else 0) := by
      cases hs : e.state with
      | none => simp [headsOutcome, hs]
      | some s =>
        simp only [hs, Option.isSome_some, if_true]
        split <;> omega
    omega

theorem recordList_n_tosses (es : List CoinEntity) :
    ∀ r : CoinSimResults,
      (recordList es r).n_tosses = r.n_tosses + (countOutcomes es : Int) := by
  induction es with
  | nil => intro r; simp [recordList, countOutcomes]
  | cons e es ih =>
    intro r
    simp only [recordList, countOutcomes]
    rw [ih]
    cases hs : e.state with
    | none => simp [recordEntity, hs]
    | some s => simp [recordEntity, hs]; omega

theorem recordList_n_heads (es : List CoinEntity) :
    ∀ r : CoinSimResults,
      (recordList es r).n_heads = r.n_heads + (countHeads es : Int) := by
  induction es with
  | nil => intro r; simp [recordList, countHeads]
  | cons e es ih =>
    intro r
    simp only [recordList, countHeads]
    rw [ih]
    cases hs : e.state with
    | none => simp [recordEntity, headsOutcome, hs]
    | some s =>
      cases s with
      | Heads => simp [recordEntity, headsOutcome, hs]; omega
      | Tails => simp [recordEntity, headsOutcome, hs]

theorem recordList_p (es : List CoinEntity) :
    ∀ r : CoinSimResults, (recordList es r).p = r.p := by
  induction es with
  | nil => intro r; rfl
  | cons e es ih =>
    intro r
    simp only [recordList]
    rw [ih]
    cases hs : e.state with
    | none => simp [recordEntity, hs]
    | some s => simp [recordEntity, hs]

theorem clearEntity_p (e : CoinEntity) : (clearEntity e).p = e.p := rfl

theorem reset_map_p (es : List CoinEntity) :
    (es.map clearEntity).map CoinEntity.p = es.map CoinEntity.p := by
  rw [List.map_map]
  rfl

/-! ### One schedule step and iterated steps -/

theorem run_once_some_rel (f : FlipFun) (w w' : World) (h : run_once f w = some w') :
    WorldRel 1 w w' ∧ ∀ e ∈ w'.entities, e.state = none := by
  unfold run_once flip_coins at h
  rw [Option.bind_assoc, Option.bind_eq_some] at h
  obtain ⟨pr, hpr, h'⟩ := h
  simp only [Option.some_bind, Option.some_inj] at h'
  obtain ⟨hmap, hstates, hseed, hdraws⟩ := flipList_some_spec f w.entities w.rng pr hpr
  have hlen : pr.1.length = w.entities.length := by
    have := congrArg List.length hmap
    simpa using this
  have hout : countOutcomes pr.1 = w.entities.length := by
    rw [countOutcomes_eq_length pr.1 hstates, hlen]
  subst h'
  refine ⟨⟨?_, ?_, ?_, ?_, ?_, ?_, ?_, ?_⟩, ?_⟩
  · simpa [reset_coins, record_coins] using (reset_map_p pr.1).trans hmap
  · simpa [reset_coins, record_coins] using hseed
  · simp only [reset_coins, record_coins]
    omega
  · simp only [reset_coins, record_coins]
    exact recordList_p pr.1 w.results
  · simp only [reset_coins, record_coins]
    rw [recordList_n_tosses, hout]
    push_cast
    omega
  · simp only [reset_coins, record_coins]
    rw [recordList_n_heads]
    have : (0 : Int) ≤ (countHeads pr.1 : Int) := Int.natCast_nonneg _
    omega
  · simp only [reset_coins, record_coins]
    rw [recordList_n_heads]
    have h1 : countHeads pr.1 ≤ countOutcomes pr.1 := countHeads_le_countOutcomes pr.1
    have h2 : (countHeads pr.1 : Int) ≤ (w.entities.length : Int) := by
      rw [← hout]
      exact_mod_cast h1
    push_cast
    omega
  · simp [reset_coins, record_coins]
  · intro e he
    simp only [reset_coins, record_coins, List.mem_map] at he
    obtain ⟨e0, _, he0⟩ := he
    rw [← he0]
    rfl

theorem WorldRel_trans (a b : Nat) (w1 w2 w3 : World)
    (h1 : WorldRel a w1 w2) (h2 : WorldRel b w2 w3) : WorldRel (a + b) w1 w3 := by
  obtain ⟨m1, s1, d1, p1, t1, hl1, hu1, r1⟩ := h1
  obtain ⟨m2, s2, d2, p2, t2, hl2, hu2, r2⟩ := h2
  have hlen : w2.entities.length = w1.entities.length := by
    have := congrArg List.length m1
    simpa using this
  refine ⟨m2.trans m1, s2.trans s1, ?_, p2.trans p1, ?_, hl1.trans hl2, ?_, r2.trans r1⟩
  · rw [d2, d1, hlen]
    ring
  · rw [t2, t1, hlen]
    push_cast
    ring
  · rw [hlen] at hu2
    have : ((b * w1.entities.length : Nat) : Int) + ((a * w1.entities.length : Nat) : Int)
        = (((a + b) * w1.entities.length : Nat) : Int) := by
      push_cast
      ring
    omega

theorem runN_some_rel (f : FlipFun) (k : Nat) :
    ∀ w w' : World, runN f k w = some w' → WorldRel k w w' := by
  induction k with
  | zero =>
    intro w w' h
    rw [runN, Option.some_inj] at h
    subst h
    refine ⟨rfl, rfl, by omega, rfl, by simp, le_refl _, by simp, rfl⟩
  | succ k ih =>
    intro w w' h
    rw [runN, Option.bind_eq_some] at h
    obtain ⟨w1, hw1, hrest⟩ := h
    have h1 := (run_once_some_rel f w w1 hw1).1
    have h2 := ih w1 w' hrest
    have := WorldRel_trans 1 k w w1 w' h1 h2
    rwa [Nat.add_comm 1 k] at this

theorem WOk_of_map_p (w w' : World)
    (hmap : w'.entities.map CoinEntity.p = w.entities.map CoinEntity.p)
    (h : WOk w) : WOk w' := by
  intro e he
  have : e.p ∈ w'.entities.map CoinEntity.p := List.mem_map_of_mem CoinEntity.p he
  rw [hmap] at this
  obtain ⟨e0, he0, hpe⟩ := List.mem_map.mp this
  rw [← hpe]
  exact h e0 he0

theorem run_once_isSome (f : FlipFun) (w : World) (h : WOk w) :
    (run_once f w).isSome = true := by
  unfold run_once flip_coins
  have := flipList_isSome f w.entities w.rng h
  rw [Option.isSome_iff_exists] at this
  obtain ⟨pr, hpr⟩ := this
  simp [hpr]

theorem runN_isSome (f : FlipFun) (k : Nat) :
    ∀ w : World, WOk w → (runN f k w).isSome = true := by
  induction k with
  | zero => intro w _; rfl
  | succ k ih =>
    intro w h
    rw [runN]
    have h1 := run_once_isSome f w h
    rw [Option.isSome_iff_exists] at h1
    obtain ⟨w1, hw1⟩ := h1
    have hok1 : WOk w1 :=
      WOk_of_map_p w w1 ((run_once_some_rel f w w1 hw1).1).1 h
    rw [hw1, Option.some_bind]
    exact ih w1 hok1

/-! ### Ticks over the registry -/

theorem forall₂_mem_right {α β : Type} {R : α → β → Prop} :
    ∀ {l₁ : List α} {l₂ : List β}, List.Forall₂ R l₁ l₂ → ∀ b ∈ l₂, ∃ a ∈ l₁, R a b := by
  intro l₁ l₂ h
  induction h with
  | nil => intro b hb; cases hb
  | cons ha hl ih =>
    intro b hb
    rcases List.mem_cons.mp hb with rfl | hb'
    · exact ⟨_, List.mem_cons_self _ _, ha⟩
    · obtain ⟨a, hal, har⟩ := ih b hb'
      exact ⟨a, List.mem_cons_of_mem _ hal, har⟩

theorem forall₂_worldRel_comp (a b : Nat) :
    ∀ {l₁ l₂ l₃ : List Simulation},
      List.Forall₂ (fun s s' => WorldRel a s.world s'.world) l₁ l₂ →
      List.Forall₂ (fun s s' => WorldRel b s.world s'.world) l₂ l₃ →
      List.Forall₂ (fun s s' => WorldRel (a + b) s.world s'.world) l₁ l₃ := by
  intro l₁ l₂ l₃ h1
  induction h1 generalizing l₃ with
  | nil => intro h2; cases h2; exact List.Forall₂.nil
  | cons ha hl ih =>
    intro h2
    cases h2 with
    | cons hb hl2 => exact List.Forall₂.cons (WorldRel_trans _ _ _ _ _ ha hb) (ih hl2)

theorem tickFrom_some_spec (f : FlipFun) (steps : Int) :
    ∀ (sims : List Simulation) (pr : List Simulation × List CoinSimResults),
      tickFrom f steps sims = some pr →
      pr.2 = pr.1.map (fun s => s.world.results) ∧
      List.Forall₂ (fun s s' => WorldRel steps.toNat s.world s'.world) sims pr.1 := by
  intro sims
  induction sims with
  | nil =>
    intro pr h
    rw [tickFrom, Option.some_inj] at h
    subst h
    exact ⟨rfl, List.Forall₂.nil⟩
  | cons s rest ih =>
    intro pr h
    rw [tickFrom, Option.bind_eq_some] at h
    obtain ⟨w', hw', h⟩ := h
    rw [Option.bind_eq_some] at h
    obtain ⟨pr0, hpr0, h⟩ := h
    rw [Option.some_inj] at h
    subst h
    obtain ⟨hsnap, hrel⟩ := ih pr0 hpr0
    refine ⟨by simp [hsnap], List.Forall₂.cons ?_ hrel⟩
    exact runN_some_rel f steps.toNat s.world w' hw'

theorem tickFrom_isSome (f : FlipFun) (steps : Int) :
    ∀ sims : List Simulation, (∀ s ∈ sims, WOk s.world) →
      (tickFrom f steps sims).isSome = true := by
  intro sims
  induction sims with
  | nil => intro _; rfl
  | cons s rest ih =>
    intro hok
    rw [tickFrom]
    have h1 := runN_isSome f steps.toNat s.world (hok s (List.mem_cons_self s rest))
    rw [Option.isSome_iff_exists] at h1
    obtain ⟨w', hw'⟩ := h1
    have h2 := ih (fun x hx => hok x (List.mem_cons_of_mem s hx))
    rw [Option.isSome_iff_exists] at h2
    obtain ⟨pr0, hpr0⟩ := h2
    simp [run_simulation, hw', hpr0]

/-- All registered simulations have their entity odds in range. -/
def MOk (m : MainWorld) : Prop := ∀ s ∈ m.sims, WOk s.world

theorem MOk_of_forall₂ (k : Nat) (l₁ l₂ : List Simulation)
    (h : List.Forall₂ (fun s s' => WorldRel k s.world s'.world) l₁ l₂)
    (hok : ∀ s ∈ l₁, WOk s.world) : ∀ s ∈ l₂, WOk s.world := by
  intro s' hs'
  obtain ⟨s, hsl, hrel⟩ := forall₂_mem_right h s' hs'
  exact WOk_of_map_p s.world s'.world hrel.1 (hok s hsl)

theorem tick_some_spec (f : FlipFun) (m m' : MainWorld) (h : tick f m = some m') :
    m'.simulation_steps = m.simulation_steps ∧
    m'.collected_data = m.collected_data ++ m'.sims.map (fun s => s.world.results) ∧
    List.Forall₂ (fun s s' => WorldRel m.simulation_steps.toNat s.world s'.world)
      m.sims m'.sims := by
  unfold tick at h
  rw [Option.bind_eq_some] at h
  obtain ⟨pr, hpr, h⟩ := h
  rw [Option.some_inj] at h
  subst h
  obtain ⟨hsnap, hrel⟩ := tickFrom_some_spec f m.simulation_steps m.sims pr hpr
  exact ⟨rfl, by simp [hsnap], hrel⟩

theorem tick_isSome (f : FlipFun) (m : MainWorld) (h : MOk m) :
    (tick f m).isSome = true := by
  unfold tick
  have h1 := tickFrom_isSome f m.simulation_steps m.sims h
  rw [Option.isSome_iff_exists] at h1
  obtain ⟨pr, hpr⟩ := h1
  simp [hpr]

theorem runTicks_some_spec (f : FlipFun) (t : Nat) :
    ∀ m m' : MainWorld, runTicks f t m = some m' →
      m'.simulation_steps = m.simulation_steps ∧
      (∃ tail, m'.collected_data = m.collected_data ++ tail ∧
        tail.length = t * m.sims.length) ∧
      List.Forall₂ (fun s s' => WorldRel (t * m.simulation_steps.toNat) s.world s'.world)
        m.sims m'.sims := by
  induction t with
  | zero =>
    intro m m' h
    rw [runTicks, Option.some_inj] at h
    subst h
    refine ⟨rfl, ⟨[], by simp⟩, ?_⟩
    have : ∀ l : List Simulation,
        List.Forall₂ (fun s s' => WorldRel 0 s.world s'.world) l l := by
      intro l
      induction l with
      | nil => exact List.Forall₂.nil
      | cons s rest ih =>
        exact List.Forall₂.cons ⟨rfl, rfl, by omega, rfl, by simp, le_refl _, by simp, rfl⟩ ih
    simpa using this m.sims
  | succ t ih =>
    intro m m' h
    rw [runTicks, Option.bind_eq_some] at h
    obtain ⟨m1, hm1, hrest⟩ := h
    obtain ⟨hsteps1, hstore1, hrel1⟩ := tick_some_spec f m m1 hm1
    obtain ⟨hsteps2, ⟨tail2, hstore2, hlen2⟩, hrel2⟩ := ih m1 m' hrest
    have hsimlen : m1.sims.length = m.sims.length := hrel1.length_eq.symm
    refine ⟨hsteps2.trans hsteps1, ?_, ?_⟩
    · refine ⟨m1.sims.map (fun s => s.world.results) ++ tail2, ?_, ?_⟩
      · rw [hstore2, hstore1, List.append_assoc]
      · simp only [List.length_append, List.length_map, hlen2, hsimlen]
        ring
    · rw [hsteps1] at hrel2
      have := forall₂_worldRel_comp m.simulation_steps.toNat
        (t * m.simulation_steps.toNat) hrel1 hrel2
      have harith : m.simulation_steps.toNat + t * m.simulation_steps.toNat
          = (t + 1) * m.simulation_steps.toNat := by ring
      rwa [harith] at this

theorem runTicks_isSome (f : FlipFun) (t : Nat) :
    ∀ m : MainWorld, MOk m → (runTicks f t m).isSome = true := by
  induction t with
  | zero => intro m _; rfl
  | succ t ih =>
    intro m h
    rw [runTicks]
    have h1 := tick_isSome f m h
    rw [Option.isSome_iff_exists] at h1
    obtain ⟨m1, hm1⟩ := h1
    have hok1 : MOk m1 :=
      MOk_of_forall₂ m.simulation_steps.toNat m.sims m1.sims
        (tick_some_spec f m m1 hm1).2.2 h
    rw [hm1, Option.some_bind]
    exact ih m1 hok1

/-! ### Construction and registration -/

theorem new_some_inv (p : ℚ) (n : Int) (s : Simulation)
    (h : Simulation.new p n = some s) :
    0 ≤ p ∧ p ≤ 1 ∧
    s.world = ⟨List.replicate n.toNat ⟨p, none⟩, n, ⟨42, 0⟩, ⟨p, 0, 0⟩⟩ := by
  unfold Simulation.new at h
  split at h
  case isTrue hc =>
    rw [Option.some_inj] at h
    subst h
    exact ⟨hc.1, hc.2, rfl⟩
  case isFalse => cases h

theorem new_world_WOk (p : ℚ) (n : Int) (s : Simulation)
    (h : Simulation.new p n = some s) : WOk s.world := by
  obtain ⟨h0, h1, hw⟩ := new_some_inv p n s h
  intro e he
  rw [hw] at he
  have := List.eq_of_mem_replicate he
  rw [this]
  exact ⟨h0, h1⟩

theorem add_simulations_mem :
    ∀ (params : List (ℚ × Int)) (sims : List Simulation),
      add_simulations params = some sims →
      ∀ s ∈ sims, ∃ pn ∈ params, Simulation.new pn.1 pn.2 = some s := by
  intro params
  induction params with
  | nil =>
    intro sims h s hs
    rw [add_simulations, Option.some_inj] at h
    subst h
    cases hs
  | cons pn rest ih =>
    intro sims h s hs
    rw [add_simulations, Option.bind_eq_some] at h
    obtain ⟨s0, hs0, h⟩ := h
    rw [Option.bind_eq_some] at h
    obtain ⟨sims0, hsims0, h⟩ := h
    rw [Option.some_inj] at h
    subst h
    rcases List.mem_cons.mp hs with rfl | hs'
    · exact ⟨pn, List.mem_cons_self pn rest, hs0⟩
    · obtain ⟨pn', hpn', hnew⟩ := ih sims0 hsims0 s hs'
      exact ⟨pn', List.mem_cons_of_mem pn hpn', hnew⟩

theorem build_app_some_inv (steps : Int) (params : List (ℚ × Int)) (m : MainWorld)
    (h : build_app steps params = some m) :
    m.simulation_steps = steps ∧ m.collected_data = [] ∧
    add_simulations params = some m.sims := by
  unfold build_app at h
  rw [Option.bind_eq_some] at h
  obtain ⟨sims, hsims, h⟩ := h
  rw [Option.some_inj] at h
  subst h
  exact ⟨rfl, rfl, hsims⟩

theorem build_app_MOk (steps : Int) (params : List (ℚ × Int)) (m : MainWorld)
    (h : build_app steps params = some m) : MOk m := by
  obtain ⟨_, _, hsims⟩ := build_app_some_inv steps params m h
  intro s hs
  obtain ⟨pn, _, hnew⟩ := add_simulations_mem params m.sims hsims s hs
  exact new_world_WOk pn.1 pn.2 s hnew

/-! ### Concrete values used to instantiate theorems with hypotheses -/

/-- A concrete sampler (every draw succeeds), used to instantiate witnesses. -/
def allHeads : FlipFun := fun _ _ => true

theorem pHalf_eq : pHalf = 1 / 2 := by
  rw [pHalf, Rat.mk'_eq_divInt, Rat.divInt_eq_div]
  norm_num

theorem pTenth_eq : pTenth = 1 / 10 := by
  rw [pTenth, Rat.mk'_eq_divInt, Rat.divInt_eq_div]
  norm_num

/-- A one-entity simulation with probability 1, as freshly constructed. -/
def simP : Simulation := ⟨⟨[⟨1, none⟩], 1, ⟨42, 0⟩, ⟨1, 0, 0⟩⟩⟩

/-- `simP` after one schedule step under `allHeads`. -/
def simPstepped : Simulation := ⟨⟨[⟨1, none⟩], 1, ⟨42, 1⟩, ⟨1, 1, 1⟩⟩⟩

/-- A one-entity simulation with probability 1/2, as freshly constructed. -/
def simQ : Simulation := ⟨⟨[⟨pHalf, none⟩], 1, ⟨42, 0⟩, ⟨pHalf, 0, 0⟩⟩⟩

/-! ### The claims -/

/-- C1: instance isolation.  Executing another instance's K-step pipeline run
(`run_simulation::<N>`, acting on registry slot `j`) leaves every other
registered instance's entire state — its entities, its generator and its
counter pair — exactly as it was: the slots of the registry are disjoint and
the system touches only slot `j`. -/
theorem C1_instance_isolation (f : FlipFun) (steps : Int)
    (sims sims' : List Simulation) (j : Nat)
    (h : run_simulation_system f steps sims j = some sims') :
    ∀ i : Nat, i ≠ j → sims'[i]? = sims[i]? := by
  unfold run_simulation_system at h
  cases hj : sims[j]? with
  | none => rw [hj] at h; cases h
  | some s =>
    rw [hj] at h
    rw [Option.bind_eq_some] at h
    obtain ⟨w', _, h⟩ := h
    rw [Option.some_inj] at h
    subst h
    intro i hij
    exact List.getElem?_set_ne (fun hji => hij hji.symm)

theorem C1_witness :
    run_simulation_system allHeads 1 [simP, simQ] 0 = some [simPstepped, simQ] ∧
    [simPstepped, simQ][1]? = [simP, simQ][1]? := by
  have h : run_simulation_system allHeads 1 [simP, simQ] 0 = some [simPstepped, simQ] := by
    decide
  exact ⟨h, C1_instance_isolation allHeads 1 [simP, simQ] [simPstepped, simQ] 0 h 1
    (by decide)⟩

/-- C3: counter invariant.  In every state reachable from construction by any
number of schedule steps, the cumulative success counter `n_heads` is at most
the cumulative trial counter `n_tosses`, whatever the sampler does. -/
theorem C3_counter_invariant (f : FlipFun) (p : ℚ) (n : Int) (s : Simulation)
    (k : Nat) (w' : World) (hnew : Simulation.new p n = some s)
    (hrun : runN f k s.world = some w') :
    w'.results.n_heads ≤ w'.results.n_tosses := by
  obtain ⟨_, _, hw⟩ := new_some_inv p n s hnew
  obtain ⟨_, _, _, _, ht, _, hu, _⟩ := runN_some_rel f k s.world w' hrun
  rw [hw] at ht hu
  simp only at ht hu
  omega

theorem C3_witness :
    Simulation.new 1 1 = some simP ∧
    runN allHeads 1 simP.world = some simPstepped.world ∧
    simPstepped.world.results.n_heads ≤ simPstepped.world.results.n_tosses := by
  refine ⟨by decide, by decide, ?_⟩
  exact C3_counter_invariant allHeads 1 1 simP 1 simPstepped.world (by decide) (by decide)

/-- C8: reset/mutate shape.  Immediately after the reset stage no entity
carries an outcome; whenever the mutate stage (`flip_coins`) completes it has
attached exactly one outcome to every entity while keeping the population
(count and per-entity parameter) fixed; and a full step leaves the entity
population fixed and, if the step started with no outcomes attached, returns
the entities to exactly their pre-step shape. -/
theorem C8_reset_mutate_shape (f : FlipFun) :
    (∀ w : World, ∀ e ∈ (reset_coins w).entities, e.state = none) ∧
    (∀ w w₁ : World, flip_coins f w = some w₁ →
      w₁.entities.map CoinEntity.p = w.entities.map CoinEntity.p ∧
      ∀ e ∈ w₁.entities, e.state.isSome = true) ∧
    (∀ w w' : World, run_once f w = some w' →
      w'.entities.map CoinEntity.p = w.entities.map CoinEntity.p ∧
      ((∀ e ∈ w.entities, e.state = none) → w'.entities = w.entities)) := by
  refine ⟨?_, ?_, ?_⟩
  · intro w e he
    simp only [reset_coins, List.mem_map] at he
    obtain ⟨e0, _, he0⟩ := he
    rw [← he0]
    rfl
  · intro w w₁ h
    unfold flip_coins at h
    rw [Option.bind_eq_some] at h
    obtain ⟨pr, hpr, h⟩ := h
    rw [Option.some_inj] at h
    subst h
    obtain ⟨hmap, hstates, _, _⟩ := flipList_some_spec f w.entities w.rng pr hpr
    exact ⟨hmap, hstates⟩
  · intro w w' h
    have hmap := ((run_once_some_rel f w w' h).1).1
    refine ⟨hmap, ?_⟩
    intro hnone
    have hstates := (run_once_some_rel f w w' h).2
    -- both lists have equal parameter sequences and all-`none` states,
    -- hence are equal
    have : ∀ (l l' : List CoinEntity),
        l'.map CoinEntity.p = l.map CoinEntity.p →
        (∀ e ∈ l, e.state = none) → (∀ e ∈ l', e.state = none) → l' = l := by
      intro l
      induction l with
      | nil =>
        intro l' hm _ _
        cases l' with
        | nil => rfl
        | cons a t => cases hm
      | cons a t ih =>
        intro l' hm h1 h2
        cases l' with
        | nil => cases hm
        | cons a' t' =>
          simp only [List.map_cons, List.cons.injEq] at hm
          have ha : a' = a := by
            have hsa' : a'.state = none := h2 a' (List.mem_cons_self a' t')
            have hsa : a.state = none := h1 a (List.mem_cons_self a t)
            cases a with
            | mk pa sa =>
              cases a' with
              | mk pa' sa' =>
                simp only at hsa hsa' hm
                rw [hsa, hsa', hm.1]
          rw [ha]
          rw [ih t' hm.2 (fun e he => h1 e (List.mem_cons_of_mem a he))
            (fun e he => h2 e (List.mem_cons_of_mem a' he))]
    exact this w.entities w'.entities hmap hnone hstates

theorem C8_witness :
    (∀ e ∈ (reset_coins simPstepped.world).entities, e.state = none) ∧
    (flip_coins allHeads simP.world
        = some ⟨[⟨1, some CoinState.Heads⟩], 1, ⟨42, 1⟩, ⟨1, 0, 0⟩⟩) ∧
    run_once allHeads simP.world = some simPstepped.world ∧
    simPstepped.world.entities = simP.world.entities := by
  have hflip : flip_coins allHeads simP.world
      = some ⟨[⟨1, some CoinState.Heads⟩], 1, ⟨42, 1⟩, ⟨1, 0, 0⟩⟩ := by decide
  have hstep : run_once allHeads simP.world = some simPstepped.world := by decide
  refine ⟨(C8_reset_mutate_shape allHeads).1 simPstepped.world, hflip, hstep, ?_⟩
  exact ((C8_reset_mutate_shape allHeads).2.2 simP.world simPstepped.world hstep).2
    (by decide)

/-- C10: under the construction precondition `p ∈ [0,1]`, the `Bernoulli::new`
performed for every entity in every mutate stage succeeds, so for an admitted
instance no step can ever hit the `unwrap` panic branch: every iterated run
of the schedule is defined, and every reachable entity's distribution
construction succeeds. -/
theorem C10_unwrap_unreachable (f : FlipFun) (p : ℚ) (n : Int) (s : Simulation)
    (k : Nat) (hnew : Simulation.new p n = some s) :
    (runN f k s.world).isSome = true ∧
    (∀ w', runN f k s.world = some w' →
      ∀ e ∈ w'.entities, (Bernoulli.new e.p).isSome = true) := by
  have hok : WOk s.world := new_world_WOk p n s hnew
  refine ⟨runN_isSome f k s.world hok, ?_⟩
  intro w' hw' e he
  have hok' : WOk w' := WOk_of_map_p s.world w' (runN_some_rel f k s.world w' hw').1 hok
  have := hok' e he
  unfold Bernoulli.new
  rw [if_pos this]
  rfl

theorem C10_witness :
    (runN allHeads 1 simP.world).isSome = true ∧
    (∀ w', runN allHeads 1 simP.world = some w' →
      ∀ e ∈ w'.entities, (Bernoulli.new e.p).isSome = true) :=
  C10_unwrap_unreachable allHeads 1 1 simP 1 (by decide)

/-! ### Parameter range of admitted instances and of stored snapshots -/

theorem tick_store_p (f : FlipFun) (m m' : MainWorld) (h : tick f m = some m')
    (hsims : ∀ s ∈ m.sims, 0 ≤ s.world.results.p ∧ s.world.results.p ≤ 1)
    (hstore : ∀ r ∈ m.collected_data, 0 ≤ r.p ∧ r.p ≤ 1) :
    (∀ s ∈ m'.sims, 0 ≤ s.world.results.p ∧ s.world.results.p ≤ 1) ∧
    (∀ r ∈ m'.collected_data, 0 ≤ r.p ∧ r.p ≤ 1) := by
  obtain ⟨_, hst, hrel⟩ := tick_some_spec f m m' h
  have hsims' : ∀ s' ∈ m'.sims, 0 ≤ s'.world.results.p ∧ s'.world.results.p ≤ 1 := by
    intro s' hs'
    obtain ⟨s, hsl, hr⟩ := forall₂_mem_right hrel s' hs'
    rw [hr.2.2.2.1]
    exact hsims s hsl
  refine ⟨hsims', ?_⟩
  intro r hr'
  rw [hst] at hr'
  rcases List.mem_append.mp hr' with h1 | h2
  · exact hstore r h1
  · obtain ⟨s', hs', hrs⟩ := List.mem_map.mp h2
    rw [← hrs]
    exact hsims' s' hs'

theorem runTicks_store_p (f : FlipFun) (t : Nat) :
    ∀ m m' : MainWorld, runTicks f t m = some m' →
      (∀ s ∈ m.sims, 0 ≤ s.world.results.p ∧ s.world.results.p ≤ 1) →
      (∀ r ∈ m.collected_data, 0 ≤ r.p ∧ r.p ≤ 1) →
      (∀ s ∈ m'.sims, 0 ≤ s.world.results.p ∧ s.world.results.p ≤ 1) ∧
      (∀ r ∈ m'.collected_data, 0 ≤ r.p ∧ r.p ≤ 1) := by
  induction t with
  | zero =>
    intro m m' h hs hr
    rw [runTicks, Option.some_inj] at h
    subst h
    exact ⟨hs, hr⟩
  | succ t ih =>
    intro m m' h hs hr
    rw [runTicks, Option.bind_eq_some] at h
    obtain ⟨m1, hm1, hrest⟩ := h
    obtain ⟨hs1, hr1⟩ := tick_store_p f m m1 hm1 hs hr
    exact ih m1 m' hrest hs1 hr1

/-- C7: a probability outside `[0, 1]` (for example `3/2` or `-1/10`) makes
construction fail; a rejected instance never reaches the registry (the
registration chain aborts), every admitted instance's parameter lies in
`[0, 1]`, and consequently every snapshot ever stored carries a parameter in
`[0, 1]`. -/
theorem C7_probability_validation :
    Simulation.new (3/2) 100 = none ∧
    Simulation.new (-1/10) 100 = none ∧
    (∀ (params : List (ℚ × Int)) (sims : List Simulation),
      add_simulations params = some sims →
      ∀ s ∈ sims, 0 ≤ s.world.results.p ∧ s.world.results.p ≤ 1) ∧
    (∀ (f : FlipFun) (steps : Int) (params : List (ℚ × Int)) (t : Nat)
        (m m' : MainWorld),
      build_app steps params = some m → runTicks f t m = some m' →
      ∀ r ∈ m'.collected_data, 0 ≤ r.p ∧ r.p ≤ 1) := by
  have hadm : ∀ (params : List (ℚ × Int)) (sims : List Simulation),
      add_simulations params = some sims →
      ∀ s ∈ sims, 0 ≤ s.world.results.p ∧ s.world.results.p ≤ 1 := by
    intro params sims h s hs
    obtain ⟨pn, _, hnew⟩ := add_simulations_mem params sims h s hs
    obtain ⟨h0, h1, hw⟩ := new_some_inv pn.1 pn.2 s hnew
    rw [hw]
    exact ⟨h0, h1⟩
  refine ⟨?_, ?_, hadm, ?_⟩
  · unfold Simulation.new
    rw [if_neg]
    intro hc
    have := hc.2
    norm_num at this
  · unfold Simulation.new
    rw [if_neg]
    intro hc
    have := hc.1
    norm_num at this
  · intro f steps params t m m' hm hm'
    obtain ⟨_, hstore0, hsims⟩ := build_app_some_inv steps params m hm
    refine (runTicks_store_p f t m m' hm' (hadm params m.sims hsims) ?_).2
    rw [hstore0]
    intro r hr
    cases hr

/-- The one-instance app `⟨steps 1, [simP], empty store⟩`. -/
def appP : MainWorld := ⟨1, [simP], []⟩

/-- `appP` after one tick under `allHeads`. -/
def appPticked : MainWorld := ⟨1, [simPstepped], [⟨1, 1, 1⟩]⟩

theorem C7_witness :
    Simulation.new (3/2) 100 = none ∧
    (∀ s ∈ [simP], 0 ≤ s.world.results.p ∧ s.world.results.p ≤ 1) ∧
    (∀ r ∈ appPticked.collected_data, 0 ≤ r.p ∧ r.p ≤ 1) := by
  refine ⟨C7_probability_validation.1, ?_, ?_⟩
  · exact C7_probability_validation.2.2.1 [(1, 1)] [simP] (by decide)
  · exact C7_probability_validation.2.2.2 allHeads 1 [(1, 1)] 1 appP appPticked
      (by decide) (by decide)

/-- C5: per-step trial accounting.  Whenever the mutate stage completes, the
following record stage adds exactly the entity count to the trial counter and
adds exactly the number of entities whose outcome is the success value to the
success counter; consequently an instance with 100 entities and `K = 1` step
per tick has cumulative trials 1000 after 10 ticks, whatever the sampler
does. -/
theorem C5_per_step_accounting (f : FlipFun) :
    (∀ w w₁ : World, flip_coins f w = some w₁ →
      (record_coins w₁).results.n_tosses
          = w.results.n_tosses + (w.entities.length : Int) ∧
      (record_coins w₁).results.n_heads
          = w.results.n_heads + (countHeads w₁.entities : Int)) ∧
    (∀ (p : ℚ) (m m' : MainWorld), build_app 1 [(p, 100)] = some m →
      runTicks f 10 m = some m' →
      ∀ s' ∈ m'.sims, s'.world.results.n_tosses = 1000) := by
  constructor
  · intro w w₁ h
    unfold flip_coins at h
    rw [Option.bind_eq_some] at h
    obtain ⟨pr, hpr, h⟩ := h
    rw [Option.some_inj] at h
    obtain ⟨hmap, hstates, _, _⟩ := flipList_some_spec f w.entities w.rng pr hpr
    subst h
    have hlen : pr.1.length = w.entities.length := by
      simpa using congrArg List.length hmap
    constructor
    · simp only [record_coins]
      rw [recordList_n_tosses, countOutcomes_eq_length pr.1 hstates, hlen]
    · simp only [record_coins]
      rw [recordList_n_heads]
  · intro p m m' hm hm'
    obtain ⟨hsteps, _, hsims⟩ := build_app_some_inv 1 [(p, 100)] m hm
    rw [add_simulations, Option.bind_eq_some] at hsims
    obtain ⟨s, hnew, hsims⟩ := hsims
    rw [add_simulations, Option.some_bind, Option.some_inj] at hsims
    obtain ⟨_, _, hw⟩ := new_some_inv p 100 s hnew
    have hrel := (runTicks_some_spec f 10 m m' hm').2.2
    rw [hsteps, ← hsims] at hrel
    intro s' hs'
    obtain ⟨s0, hs0, hr⟩ := forall₂_mem_right hrel s' hs'
    have hs0' : s0 = s := by
      rcases List.mem_singleton.mp hs0 with rfl
      rfl
    subst hs0'
    have ht := hr.2.2.2.2.1
    rw [hw] at ht
    simp only [List.length_replicate] at ht
    rw [ht]
    norm_num

/-- The state of the one-instance, 100-entity, probability-1/2, `K = 1` app
after `i` ticks under `allHeads`: `100·i` draws made, `100·i` trials and
successes recorded, one snapshot per completed tick. -/
def c5app (i : Nat) : MainWorld :=
  ⟨1, [⟨⟨List.replicate 100 ⟨pHalf, none⟩, 100, ⟨42, 100 * i⟩,
        ⟨pHalf, 100 * i, 100 * i⟩⟩⟩],
   (List.range i).map fun j => ⟨pHalf, 100 * (j + 1), 100 * (j + 1)⟩⟩

theorem runTicks_succ_of_tick (f : FlipFun) (t : Nat) (a b : MainWorld)
    (h : tick f a = some b) : runTicks f (t + 1) a = runTicks f t b := by
  rw [runTicks, h, Option.some_bind]

set_option maxRecDepth 4000 in
theorem c5app_ticks : runTicks allHeads 10 (c5app 0) = some (c5app 10) := by
  have hstep : ∀ i ∈ List.range 10, tick allHeads (c5app i) = some (c5app (i + 1)) := by
    decide
  calc runTicks allHeads 10 (c5app 0)
      = runTicks allHeads 9 (c5app 1) :=
        runTicks_succ_of_tick allHeads 9 _ _ (hstep 0 (by decide))
    _ = runTicks allHeads 8 (c5app 2) :=
        runTicks_succ_of_tick allHeads 8 _ _ (hstep 1 (by decide))
    _ = runTicks allHeads 7 (c5app 3) :=
        runTicks_succ_of_tick allHeads 7 _ _ (hstep 2 (by decide))
    _ = runTicks allHeads 6 (c5app 4) :=
        runTicks_succ_of_tick allHeads 6 _ _ (hstep 3 (by decide))
    _ = runTicks allHeads 5 (c5app 5) :=
        runTicks_succ_of_tick allHeads 5 _ _ (hstep 4 (by decide))
    _ = runTicks allHeads 4 (c5app 6) :=
        runTicks_succ_of_tick allHeads 4 _ _ (hstep 5 (by decide))
    _ = runTicks allHeads 3 (c5app 7) :=
        runTicks_succ_of_tick allHeads 3 _ _ (hstep 6 (by decide))
    _ = runTicks allHeads 2 (c5app 8) :=
        runTicks_succ_of_tick allHeads 2 _ _ (hstep 7 (by decide))
    _ = runTicks allHeads 1 (c5app 9) :=
        runTicks_succ_of_tick allHeads 1 _ _ (hstep 8 (by decide))
    _ = runTicks allHeads 0 (c5app 10) :=
        runTicks_succ_of_tick allHeads 0 _ _ (hstep 9 (by decide))
    _ = some (c5app 10) := rfl

/-- `simP.world` after its mutate stage under `allHeads`. -/
def wP1 : World := ⟨[⟨1, some CoinState.Heads⟩], 1, ⟨42, 1⟩, ⟨1, 0, 0⟩⟩

theorem C5_witness :
    ((record_coins wP1).results.n_tosses
        = simP.world.results.n_tosses + (simP.world.entities.length : Int) ∧
      (record_coins wP1).results.n_heads
        = simP.world.results.n_heads + (countHeads wP1.entities : Int)) ∧
    (∀ s' ∈ (c5app 10).sims, s'.world.results.n_tosses = 1000) := by
  constructor
  · exact (C5_per_step_accounting allHeads).1 simP.world wP1 (by decide)
  · exact (C5_per_step_accounting allHeads).2 pHalf (c5app 0) (c5app 10)
      (by decide) c5app_ticks

/-- C2: determinism.  Two runs with identical configuration (same steps-per-
tick, same parameter list, same tick count, same sampler) produce identical
final states — in particular identical `ResultStore` contents element for
element; moreover every registered instance's generator starts as the
construction-time seed `42` with zero draws and, after `t` ticks, still
carries seed `42` having only advanced by exactly one draw per entity per
step (it is never reseeded). -/
theorem C2_determinism (f : FlipFun) (steps₁ steps₂ : Int)
    (params₁ params₂ : List (ℚ × Int)) (t : Nat)
    (hs : steps₁ = steps₂) (hp : params₁ = params₂) :
    (build_app steps₁ params₁).bind (runTicks f t)
        = (build_app steps₂ params₂).bind (runTicks f t) ∧
    ∀ m m', build_app steps₁ params₁ = some m → runTicks f t m = some m' →
      List.Forall₂ (fun s s' =>
          s.world.rng = ⟨42, 0⟩ ∧ s'.world.rng.seed = 42 ∧
          s'.world.rng.draws = t * steps₁.toNat * s.world.entities.length)
        m.sims m'.sims := by
  subst hs
  subst hp
  refine ⟨rfl, ?_⟩
  intro m m' hm hm'
  obtain ⟨hsteps, _, hsims⟩ := build_app_some_inv steps₁ params₁ m hm
  have hrel := (runTicks_some_spec f t m m' hm').2.2
  rw [hsteps] at hrel
  have hseed : ∀ s ∈ m.sims, s.world.rng = ⟨42, 0⟩ := by
    intro s hs'
    obtain ⟨pn, _, hnew⟩ := add_simulations_mem params₁ m.sims hsims s hs'
    rw [(new_some_inv pn.1 pn.2 s hnew).2.2]
  have main : ∀ (l₁ l₂ : List Simulation),
      List.Forall₂ (fun s s' => WorldRel (t * steps₁.toNat) s.world s'.world) l₁ l₂ →
      (∀ s ∈ l₁, s.world.rng = ⟨42, 0⟩) →
      List.Forall₂ (fun s s' =>
          s.world.rng = ⟨42, 0⟩ ∧ s'.world.rng.seed = 42 ∧
          s'.world.rng.draws = t * steps₁.toNat * s.world.entities.length) l₁ l₂ := by
    intro l₁ l₂ h
    induction h with
    | nil => intro _; exact List.Forall₂.nil
    | @cons a b l₁' l₂' ha hl ih =>
      intro hseeds
      refine List.Forall₂.cons ?_ (ih fun x hx => hseeds x (List.mem_cons_of_mem _ hx))
      have h0 := hseeds _ (List.mem_cons_self _ _)
      obtain ⟨_, hsd, hdr, _⟩ := ha
      refine ⟨h0, by rw [hsd, h0], ?_⟩
      rw [hdr, h0]
      simp [Nat.mul_assoc]
  exact main m.sims m'.sims hrel hseed

/-- A two-entity, probability-1 instance as freshly constructed. -/
def simD : Simulation := ⟨⟨[⟨1, none⟩, ⟨1, none⟩], 2, ⟨42, 0⟩, ⟨1, 0, 0⟩⟩⟩

/-- The app registering only `simD`, with `K = 1`. -/
def appD : MainWorld := ⟨1, [simD], []⟩

/-- `appD` after one tick under `allHeads`. -/
def appDticked : MainWorld :=
  ⟨1, [⟨⟨[⟨1, none⟩, ⟨1, none⟩], 2, ⟨42, 2⟩, ⟨1, 2, 2⟩⟩⟩], [⟨1, 2, 2⟩]⟩

theorem C2_witness :
    (build_app 1 [((1 : ℚ), 2)]).bind (runTicks allHeads 1)
        = (build_app 1 [((1 : ℚ), 2)]).bind (runTicks allHeads 1) ∧
    List.Forall₂ (fun s s' =>
        s.world.rng = ⟨42, 0⟩ ∧ s'.world.rng.seed = 42 ∧
        s'.world.rng.draws = 1 * (1 : Int).toNat * s.world.entities.length)
      appD.sims appDticked.sims := by
  have h := C2_determinism allHeads 1 1 [((1 : ℚ), 2)] [((1 : ℚ), 2)] 1 rfl rfl
  exact ⟨h.1, h.2 appD appDticked (by decide) (by decide)⟩

/-- C9: the `ResultStore` is append-only and grows by exactly one snapshot
per registered instance per tick: every tick only appends (the previous
contents survive unchanged as a prefix), it appends exactly `N` snapshots for
`N` registered instances, and after `t` ticks from a freshly built app the
store holds exactly `t · N` snapshots. -/
theorem C9_store_growth :
    (∀ (f : FlipFun) (m m' : MainWorld), tick f m = some m' →
      ∃ tail, m'.collected_data = m.collected_data ++ tail ∧
        tail.length = m.sims.length) ∧
    (∀ (f : FlipFun) (steps : Int) (params : List (ℚ × Int)) (t : Nat)
        (m m' : MainWorld),
      build_app steps params = some m → runTicks f t m = some m' →
      m'.collected_data.length = t * m.sims.length) := by
  constructor
  · intro f m m' h
    obtain ⟨_, hst, hrel⟩ := tick_some_spec f m m' h
    refine ⟨m'.sims.map (fun s => s.world.results), hst, ?_⟩
    rw [List.length_map, ← hrel.length_eq]
  · intro f steps params t m m' hm hm'
    obtain ⟨_, hstore0, _⟩ := build_app_some_inv steps params m hm
    obtain ⟨_, ⟨tail, hst, hlen⟩, _⟩ := runTicks_some_spec f t m m' hm'
    rw [hst, hstore0]
    simpa using hlen

theorem C9_witness :
    (∃ tail, appDticked.collected_data = appD.collected_data ++ tail ∧
      tail.length = appD.sims.length) ∧
    appDticked.collected_data.length = 1 * appD.sims.length := by
  refine ⟨C9_store_growth.1 allHeads appD appDticked (by decide), ?_⟩
  exact C9_store_growth.2 allHeads 1 [((1 : ℚ), 2)] 1 appD appDticked
    (by decide) (by decide)

/-- C6 counterexample: constructing an instance with a valid probability but
a non-positive entity count does NOT fail — `Simulation::new(0.5, 0)` and
`Simulation::new(0.5, -5)` both succeed (no assertion checks the entity
count) — and the instance IS admitted to the registry. -/
theorem C6_counterexample :
    (Simulation.new pHalf 0).isSome = true ∧
    (Simulation.new pHalf (-5)).isSome = true ∧
    (add_simulations [(pHalf, -5)]).isSome = true := by
  decide

/-- C6 amended: construction validates only the probability parameter.  A
non-positive entity count is accepted without error: the instance is admitted
to the registry, just with an empty entity population.  Likewise a
non-positive steps-per-tick value is accepted, a run then simply executing
zero pipeline steps. -/
theorem C6_amended_no_count_validation (p : ℚ) (n steps : Int) (f : FlipFun)
    (w : World) (h0 : 0 ≤ p) (h1 : p ≤ 1) (hn : n ≤ 0) (hsteps : steps ≤ 0) :
    ∃ s, Simulation.new p n = some s ∧ s.world.entities = [] ∧
      add_simulations [(p, n)] = some [s] ∧
      run_simulation f steps w = some w := by
  have hnew : Simulation.new p n
      = some ⟨⟨List.replicate n.toNat ⟨p, none⟩, n, ⟨42, 0⟩, ⟨p, 0, 0⟩⟩⟩ := by
    unfold Simulation.new
    rw [if_pos ⟨h0, h1⟩]
    rfl
  refine ⟨_, hnew, ?_, ?_, ?_⟩
  · simp [Int.toNat_of_nonpos hn]
  · rw [add_simulations, hnew, Option.some_bind, add_simulations, Option.some_bind]
  · unfold run_simulation
    rw [Int.toNat_of_nonpos hsteps]
    rfl

theorem C6_amended_witness :
    ∃ s, Simulation.new pHalf (-5) = some s ∧ s.world.entities = [] ∧
      add_simulations [(pHalf, -5)] = some [s] ∧
      run_simulation allHeads (-3) simP.world = some simP.world :=
  C6_amended_no_count_validation pHalf (-5) (-3) allHeads simP.world
    (by decide) (by decide) (by decide) (by decide)

/-- The main world built by `main` before any tick: `SimulationSteps(10)` and
the three simulations of `mainParams`, freshly constructed. -/
def appMain : MainWorld :=
  ⟨10, [⟨⟨List.replicate 100 ⟨pHalf, none⟩, 100, ⟨42, 0⟩, ⟨pHalf, 0, 0⟩⟩⟩,
        ⟨⟨List.replicate 100 ⟨pTenth, none⟩, 100, ⟨42, 0⟩, ⟨pTenth, 0, 0⟩⟩⟩,
        ⟨⟨List.replicate 400 ⟨1, none⟩, 400, ⟨42, 0⟩, ⟨1, 0, 0⟩⟩⟩], []⟩

/-- The trial counters of the snapshots stored by the first tick of the app
exactly as `main` configures it, under the `allHeads` sampler. -/
def mainTickTosses : Option (List Int) :=
  ((build_app mainSteps mainParams).bind (tick allHeads)).map
    fun m => m.collected_data.map CoinSimResults.n_tosses

theorem add_simulations_cons_inv (pn : ℚ × Int) (rest : List (ℚ × Int))
    (sims : List Simulation) (h : add_simulations (pn :: rest) = some sims) :
    ∃ s sims0, Simulation.new pn.1 pn.2 = some s ∧
      add_simulations rest = some sims0 ∧ sims = s :: sims0 := by
  rw [add_simulations, Option.bind_eq_some] at h
  obtain ⟨s, hs, h⟩ := h
  rw [Option.bind_eq_some] at h
  obtain ⟨sims0, hs0, h⟩ := h
  rw [Option.some_inj] at h
  exact ⟨s, sims0, hs, hs0, h.symm⟩

theorem forall₂_three {R : Simulation → Simulation → Prop} (a b c : Simulation)
    (l : List Simulation) (h : List.Forall₂ R [a, b, c] l) :
    ∃ x y z, l = [x, y, z] ∧ R a x ∧ R b y ∧ R c z := by
  cases h with
  | cons h1 h' =>
    cases h' with
    | cons h2 h'' =>
      cases h'' with
      | cons h3 h''' =>
        cases h'''
        exact ⟨_, _, _, rfl, h1, h2, h3⟩

set_option maxRecDepth 4000 in
/-- C4 counterexample: with the three instances exactly as `main` registers
them and `main`'s `SimulationSteps(10)`, the snapshots appended by the first
tick carry trial counters 1000, 1000 and 4000 — ten times each instance's
entity count, not equal to it (1000 ≠ 100). -/
theorem C4_counterexample :
    mainTickTosses = some [1000, 1000, 4000] ∧ (1000 : Int) ≠ 100 := by
  refine ⟨?_, by decide⟩
  have hm : build_app mainSteps mainParams = some appMain := by decide
  have hok : MOk appMain := by
    show ∀ s ∈ appMain.sims, ∀ e ∈ s.world.entities, 0 ≤ e.p ∧ e.p ≤ 1
    decide
  obtain ⟨m', hm'⟩ := Option.isSome_iff_exists.mp (tick_isSome allHeads appMain hok)
  obtain ⟨_, hst, hrel⟩ := tick_some_spec allHeads appMain m' hm'
  obtain ⟨x, y, z, hsims, h1, h2, h3⟩ := forall₂_three _ _ _ m'.sims hrel
  rw [mainTickTosses, hm, Option.some_bind, hm', Option.map_some', Option.some_inj,
    hst, hsims]
  have e1 := h1.2.2.2.2.1
  have e2 := h2.2.2.2.2.1
  have e3 := h3.2.2.2.2.1
  simp only [appMain, List.length_replicate] at e1 e2 e3
  simp only [appMain, List.map_nil, List.nil_append, List.map_cons, e1, e2, e3]
  decide

/-- C4 amended: with the three instances of `main` registered, after the
first tick the `ResultStore` contains exactly 3 new snapshots, appended
strictly in registration order, each with its trials counter equal to `K`
times that instance's entity count, where `K` is the configured
steps-per-tick (so equal to the entity count exactly when `K = 1`; under
`main`'s `K = 10` it is ten times the entity count). -/
theorem C4_amended_first_tick (f : FlipFun) (K : Int) (m m' : MainWorld)
    (hm : build_app K mainParams = some m) (ht : tick f m = some m') :
    ∃ r₁ r₂ r₃, m'.collected_data = [r₁, r₂, r₃] ∧
      r₁.p = 1 / 2 ∧ r₂.p = 1 / 10 ∧ r₃.p = 1 ∧
      r₁.n_tosses = (K.toNat : Int) * 100 ∧
      r₂.n_tosses = (K.toNat : Int) * 100 ∧
      r₃.n_tosses = (K.toNat : Int) * 400 := by
  obtain ⟨hsteps, hstore0, hsims⟩ := build_app_some_inv K mainParams m hm
  rw [show mainParams
      = (pHalf, (100 : Int)) :: (pTenth, (100 : Int)) :: ((1 : ℚ), (400 : Int)) :: []
    from rfl] at hsims
  obtain ⟨s1, sims1, hn1, hsims1, heq⟩ := add_simulations_cons_inv _ _ _ hsims
  obtain ⟨s2, sims2, hn2, hsims2, rfl⟩ := add_simulations_cons_inv _ _ _ hsims1
  obtain ⟨s3, sims3, hn3, hsims3, rfl⟩ := add_simulations_cons_inv _ _ _ hsims2
  rw [add_simulations, Option.some_inj] at hsims3
  subst hsims3
  obtain ⟨_, hst, hrel⟩ := tick_some_spec f m m' ht
  rw [heq] at hrel
  obtain ⟨x, y, z, hsims', h1, h2, h3⟩ := forall₂_three _ _ _ m'.sims hrel
  obtain ⟨_, _, hw1⟩ := new_some_inv pHalf 100 s1 hn1
  obtain ⟨_, _, hw2⟩ := new_some_inv pTenth 100 s2 hn2
  obtain ⟨_, _, hw3⟩ := new_some_inv (1 : ℚ) 400 s3 hn3
  rw [hst, hstore0, hsims']
  refine ⟨x.world.results, y.world.results, z.world.results, by simp, ?_, ?_, ?_, ?_, ?_, ?_⟩
  · have := h1.2.2.2.1
    rw [hw1] at this
    rw [this]
    exact pHalf_eq
  · have := h2.2.2.2.1
    rw [hw2] at this
    rw [this]
    exact pTenth_eq
  · have := h3.2.2.2.1
    rw [hw3] at this
    rw [this]
  · have := h1.2.2.2.2.1
    rw [hw1, hsteps] at this
    simp only [List.length_replicate] at this
    rw [this]
    push_cast
    ring
  · have := h2.2.2.2.2.1
    rw [hw2, hsteps] at this
    simp only [List.length_replicate] at this
    rw [this]
    push_cast
    ring
  · have := h3.2.2.2.2.1
    rw [hw3, hsteps] at this
    simp only [List.length_replicate] at this
    rw [this]
    push_cast
    ring

/-- `appMain` with `K = 1` instead of `main`'s 10. -/
def appMainK1 : MainWorld := ⟨1, appMain.sims, []⟩

/-- `appMainK1` after one tick under `allHeads`. -/
def appMainK1ticked : MainWorld :=
  ⟨1, [⟨⟨List.replicate 100 ⟨pHalf, none⟩, 100, ⟨42, 100⟩, ⟨pHalf, 100, 100⟩⟩⟩,
       ⟨⟨List.replicate 100 ⟨pTenth, none⟩, 100, ⟨42, 100⟩, ⟨pTenth, 100, 100⟩⟩⟩,
       ⟨⟨List.replicate 400 ⟨1, none⟩, 400, ⟨42, 400⟩, ⟨1, 400, 400⟩⟩⟩],
   [⟨pHalf, 100, 100⟩, ⟨pTenth, 100, 100⟩, ⟨1, 400, 400⟩]⟩

set_option maxRecDepth 4000 in
theorem C4_amended_witness :
    ∃ r₁ r₂ r₃, appMainK1ticked.collected_data = [r₁, r₂, r₃] ∧
      r₁.p = 1 / 2 ∧ r₂.p = 1 / 10 ∧ r₃.p = 1 ∧
      r₁.n_tosses = ((1 : Int).toNat : Int) * 100 ∧
      r₂.n_tosses = ((1 : Int).toNat : Int) * 100 ∧
      r₃.n_tosses = ((1 : Int).toNat : Int) * 400 :=
  C4_amended_first_tick allHeads 1 appMainK1 appMainK1ticked
    (by decide) (by decide)

end CoinSim
